import Mathlib

/-!
Verification of the explanation-generation core of the XAI-test repository
(`src/xai/algorithms.py`) against its natural-language specification.

The four Python functions (`grad_cam`, `build_grid`, `print_bboxes`,
`occlusion_test`) are shallowly embedded below.  Numpy arrays are modelled
either as nested lists (where the code only ever builds and reads whole
arrays) or as flat heap buffers (for `occlusion_test`, whose in-place
masking and aliasing behaviour is part of the claims).  Exact rational
arithmetic stands in for float arithmetic away from division by zero; the
division sites that can divide by zero in the source are modelled with an
explicit IEEE-style value type (`NpFloat`) where a claim depends on the
NaN/Inf behaviour.
-/

/-! ### Region Grid Builder (`build_grid`, algorithms.py lines 59-75) -/

/-- Ceiling division on naturals: `ceilDiv a b = ⌈a / b⌉` for `0 < b`. -/
def ceilDiv (a b : Nat) : Nat := (a + b - 1) / b

/-- Embedding of `np.arange(0, stop, step)` for nonnegative integer
arguments: the multiples of `step` below `stop`.  (`np.arange` with
`step = 0` raises; the claims only concern positive steps.) -/
def arange (stop step : Nat) : List Nat :=
  (List.range (ceilDiv stop step)).map (fun k => k * step)

/-- First component of `np.meshgrid(xs, ys)` (default `xy` indexing),
flattened in C (row-major) order: `X[i][j] = xs[j]`. -/
def meshX (xs ys : List Nat) : List Nat :=
  (ys.map (fun _ => xs)).flatten

/-- Second component of `np.meshgrid(xs, ys)` (default `xy` indexing),
flattened in C (row-major) order: `Y[i][j] = ys[i]`. -/
def meshY (xs ys : List Nat) : List Nat :=
  (ys.map (fun y => xs.map (fun _ => y))).flatten

/-- Embedding of `build_grid(stride, size, image_shape)`.  Mirrors the
source line by line: per-axis origins by `np.arange(0, extent, size*stride)`,
a meshgrid over (x-origins, y-origins), the second meshgrid stage pairing
the flattened origin grids with the constant box size, `box_start` and
`box_sizes` stacked and reshaped into pair lists, `box_end = box_start +
box_sizes`, and the final concatenation into `(x_start, y_start, x_end,
y_end)` rows. -/
def build_grid (stride size : Nat) (image_shape : Nat × Nat × Nat) :
    List (Nat × Nat × Nat × Nat) :=
  let height := image_shape.1
  let width := image_shape.2.1
  let step := size * stride
  let start_cx := arange width step
  let start_cy := arange height step
  let gx := meshX start_cx start_cy
  let gy := meshY start_cx start_cy
  let box_widths := gx.map (fun _ => size)
  let box_heights := gy.map (fun _ => size)
  let box_start := gx.zip gy
  let box_sizes := box_widths.zip box_heights
  let box_end := (box_start.zip box_sizes).map (fun p => (p.1.1 + p.2.1, p.1.2 + p.2.2))
  (box_start.zip box_end).map (fun p => (p.1.1, p.1.2, p.2.1, p.2.2))

theorem zip_map_const {α β : Type} (xs : List α) (y : β) :
    xs.zip (xs.map (fun _ => y)) = xs.map (fun x => (x, y)) := by
  induction xs with
  | nil => rfl
  | cons x xs ih => simp only [List.map_cons, List.zip_cons_cons, ih]

theorem zip_self_map {α β : Type} (l : List α) (f : α → β) :
    l.zip (l.map f) = l.map (fun a => (a, f a)) := by
  induction l with
  | nil => rfl
  | cons x xs ih => simp only [List.map_cons, List.zip_cons_cons, ih]

theorem mesh_zip (xs ys : List Nat) :
    (meshX xs ys).zip (meshY xs ys) =
      (ys.map (fun y => xs.map (fun x => (x, y)))).flatten := by
  induction ys with
  | nil => rfl
  | cons y ys ih =>
    simp only [meshX, meshY, List.map_cons, List.flatten_cons] at *
    rw [List.zip_append (by simp), ih, zip_map_const]

/-- `build_grid` produces exactly the row-major nesting of per-axis
origins: for each y-origin (outer), for each x-origin (inner), the box
`(x, y, x + size, y + size)`. -/
theorem build_grid_eq_flatten (stride size h w c : Nat) :
    build_grid stride size (h, w, c) =
      ((arange h (size * stride)).map (fun y =>
        (arange w (size * stride)).map (fun x =>
          (x, y, x + size, y + size)))).flatten := by
  simp only [build_grid]
  rw [List.zip_map, zip_self_map, List.map_map, zip_self_map, List.map_map, mesh_zip,
    List.map_flatten, List.map_map]
  simp only [Function.comp_def, List.map_map, Prod.map]

/-- Number of per-axis origins produced by `arange`. -/
theorem arange_length (stop step : Nat) : (arange stop step).length = ceilDiv stop step := by
  simp [arange]

theorem build_grid_length (stride size h w c : Nat) :
    (build_grid stride size (h, w, c)).length =
      ceilDiv w (size * stride) * ceilDiv h (size * stride) := by
  rw [build_grid_eq_flatten, List.length_flatten, List.map_map]
  simp only [Function.comp_def, List.length_map]
  rw [List.map_const', List.sum_replicate, smul_eq_mul, arange_length, arange_length,
    Nat.mul_comm]

/-- Membership characterization of `arange`: for a positive step, the
origins are exactly the multiples of `step` strictly below `stop`,
i.e. `range(0, stop, step)`. -/
theorem mem_arange (stop step z : Nat) (hs : 0 < step) :
    z ∈ arange stop step ↔ step ∣ z ∧ z < stop := by
  simp only [arange, List.mem_map, List.mem_range]
  constructor
  · rintro ⟨k, hk, rfl⟩
    refine ⟨⟨k, Nat.mul_comm k step⟩, ?_⟩
    have h1 : k + 1 ≤ (stop + step - 1) / step := hk
    have h2 : (k + 1) * step ≤ stop + step - 1 := (Nat.le_div_iff_mul_le hs).mp h1
    rw [Nat.succ_mul] at h2
    omega
  · rintro ⟨⟨k, rfl⟩, hlt⟩
    rw [Nat.mul_comm step k] at hlt
    refine ⟨k, ?_, Nat.mul_comm k step⟩
    have h2 : (k + 1) * step ≤ stop + step - 1 := by rw [Nat.succ_mul]; omega
    simp only [ceilDiv]
    exact (Nat.le_div_iff_mul_le hs).mpr h2

/-- With `0 < stop ≤ step` a single origin `0` is produced. -/
theorem arange_single (stop step : Nat) (h0 : 0 < stop) (hle : stop ≤ step) :
    arange stop step = [0] := by
  have hceil : ceilDiv stop step = 1 := by
    unfold ceilDiv
    exact Nat.div_eq_of_lt_le (by omega) (by omega)
  rw [arange, hceil, List.range_succ, List.range_zero, List.nil_append,
    List.map_singleton, Nat.zero_mul]

/-- C3: for every image shape `(height, width, channels)` and every
positive cell size and stride, `build_grid` returns exactly
`ceil(width/(size*stride)) * ceil(height/(size*stride))` boxes.  The
positivity hypotheses mirror the claim's quantification (numpy raises on
a zero step, which the counting identity here never needs). -/
theorem C3_build_grid_count (stride size h w c : Nat)
    (hsize : 0 < size) (hstride : 0 < stride) :
    (build_grid stride size (h, w, c)).length =
      ceilDiv w (size * stride) * ceilDiv h (size * stride) :=
  build_grid_length stride size h w c

theorem C3_build_grid_count_witness :
    0 < 16 ∧ 0 < 2 ∧ (build_grid 2 16 (224, 224, 3)).length = 49 :=
  ⟨by decide, by decide, by
    rw [C3_build_grid_count 2 16 224 224 3 (by decide) (by decide)]; decide⟩

/-- C4: for every positive cell size and stride, `build_grid` generates
per-axis origins exactly at `range(0, extent, size*stride)` (multiples of
`size*stride` strictly below the extent, so a single origin `0` when
`size*stride ≥ extent > 0`), every returned box is
`(x, y, x + size, y + size)` for its origin `(x, y)`, and the boxes come
in row-major order over the origin grid: all x-origins for the first
y-origin, then the next y-origin, and so on. -/
theorem C4_build_grid_origins (stride size h w c : Nat)
    (hsize : 0 < size) (hstride : 0 < stride) :
    build_grid stride size (h, w, c) =
      ((arange h (size * stride)).map (fun y =>
        (arange w (size * stride)).map (fun x =>
          (x, y, x + size, y + size)))).flatten
    ∧ (∀ e z, z ∈ arange e (size * stride) ↔ (size * stride) ∣ z ∧ z < e)
    ∧ (∀ e, 0 < e → e ≤ size * stride → arange e (size * stride) = [0]) := by
  have hs : 0 < size * stride := Nat.mul_pos hsize hstride
  exact ⟨build_grid_eq_flatten stride size h w c,
    fun e z => mem_arange e (size * stride) z hs,
    fun e he hle => arange_single e (size * stride) he hle⟩

theorem C4_build_grid_origins_witness :
    0 < 16 ∧ 0 < 2 ∧
      (build_grid 2 16 (224, 224, 3) =
        ((arange 224 32).map (fun y =>
          (arange 224 32).map (fun x => (x, y, x + 16, y + 16)))).flatten
      ∧ (∀ e z, z ∈ arange e 32 ↔ 32 ∣ z ∧ z < e)
      ∧ (∀ e, 0 < e → e ≤ 32 → arange e 32 = [0])) :=
  ⟨by decide, by decide, C4_build_grid_origins 2 16 224 224 3 (by decide) (by decide)⟩

/-! ### Rasterizer (`print_bboxes`, algorithms.py lines 78-83) -/

/-- A 2-D float image of shape `(h, w)`, the output of the rasterizer.
`data i j` is the value at row `i`, column `j`; positions at or beyond the
shape are never read. -/
structure Grid where
  h : Nat
  w : Nat
  data : Nat → Nat → ℚ

/-- Whether the slice assignment `img[bb[0]:bb[2], bb[1]:bb[3]] = v` on an
image of shape `(h, w)` writes cell `(i, j)`: numpy slices silently clip
at the array bounds. -/
def covers (bb : Nat × Nat × Nat × Nat) (h w i j : Nat) : Bool :=
  decide (bb.1 ≤ i) && decide (i < min bb.2.2.1 h) &&
    decide (bb.2.1 ≤ j) && decide (j < min bb.2.2.2 w)

/-- One slice assignment `img[bb[0]:bb[2], bb[1]:bb[3]] = v`. -/
def paintBox (g : Grid) (bb : Nat × Nat × Nat × Nat) (v : ℚ) : Grid :=
  { g with data := fun i j => if covers bb g.h g.w i j then v else g.data i j }

theorem paintBox_data (g : Grid) (bb : Nat × Nat × Nat × Nat) (v : ℚ) (i j : Nat) :
    (paintBox g bb v).data i j = if covers bb g.h g.w i j then v else g.data i j := rfl

/-- Embedding of `print_bboxes(bboxes, shape)`: starting from
`np.zeros(shape)`, paint box number `idx` (0-based) with value `idx + 1`,
in sequence order. -/
def print_bboxes (bboxes : List (Nat × Nat × Nat × Nat)) (shape : Nat × Nat) : Grid :=
  bboxes.enum.foldl (fun g p => paintBox g p.2 ((p.1 + 1 : Nat) : ℚ))
    { h := shape.1, w := shape.2, data := fun _ _ => 0 }

theorem foldl_paint_h (l : List (Nat × (Nat × Nat × Nat × Nat))) (g : Grid) :
    (l.foldl (fun g p => paintBox g p.2 ((p.1 + 1 : Nat) : ℚ)) g).h = g.h ∧
    (l.foldl (fun g p => paintBox g p.2 ((p.1 + 1 : Nat) : ℚ)) g).w = g.w := by
  induction l generalizing g with
  | nil => exact ⟨rfl, rfl⟩
  | cons a l ih => exact (ih (paintBox g a.2 _))

theorem foldl_paint_data (l : List (Nat × (Nat × Nat × Nat × Nat))) (g : Grid) (i j : Nat) :
    (l.foldl (fun g p => paintBox g p.2 ((p.1 + 1 : Nat) : ℚ)) g).data i j =
      match l.reverse.find? (fun p => covers p.2 g.h g.w i j) with
      | none => g.data i j
      | some p => ((p.1 + 1 : Nat) : ℚ) := by
  induction l using List.reverseRecOn generalizing g with
  | nil => rfl
  | append_singleton l a ih =>
    rw [List.foldl_append, List.foldl_cons, List.foldl_nil, List.reverse_append,
      List.reverse_singleton, List.singleton_append]
    have hh := foldl_paint_h l g
    by_cases hc : covers a.2 g.h g.w i j = true
    · rw [List.find?_cons_of_pos
        (p := fun (q : Nat × (Nat × Nat × Nat × Nat)) => covers q.2 g.h g.w i j) _ hc]
      rw [paintBox_data, hh.1, hh.2, hc]
      simp
    · have hc2 : covers a.2 g.h g.w i j = false := by simpa using hc
      rw [List.find?_cons_of_neg
        (p := fun (q : Nat × (Nat × Nat × Nat × Nat)) => covers q.2 g.h g.w i j) _
        (by simp [hc2])]
      rw [paintBox_data, hh.1, hh.2, hc2]
      simp only [Bool.false_eq_true, if_false]
      exact ih g

/-- Data-level description of `print_bboxes`: a cell holds `idx + 1` for
the latest box `idx` whose (clipped) area contains it, and `0` if no box
does. -/
theorem print_bboxes_data (bboxes : List (Nat × Nat × Nat × Nat)) (shape : Nat × Nat)
    (i j : Nat) :
    (print_bboxes bboxes shape).data i j =
      match bboxes.enum.reverse.find? (fun p => covers p.2 shape.1 shape.2 i j) with
      | none => 0
      | some p => ((p.1 + 1 : Nat) : ℚ) :=
  foldl_paint_data bboxes.enum { h := shape.1, w := shape.2, data := fun _ _ => 0 } i j

/-- C9: `print_bboxes` paints the i-th box's (clipped) area with the value
`i + 1` (1-based sequence index, `0` for unpainted cells); where boxes
overlap, the later box's index overwrites the earlier one's, so each cell
holds the index of the last box in the sequence covering it. -/
theorem C9_print_bboxes_paint (bboxes : List (Nat × Nat × Nat × Nat)) (shape : Nat × Nat)
    (i j : Nat) :
    (print_bboxes bboxes shape).data i j =
      match bboxes.enum.reverse.find? (fun p => covers p.2 shape.1 shape.2 i j) with
      | none => 0
      | some p => ((p.1 + 1 : Nat) : ℚ) :=
  print_bboxes_data bboxes shape i j

/-- C10: every cell of the rasterized partition is a natural number
between `0` and the number of boxes: either `0` (unpainted) or the
1-based index of some box in the sequence. -/
theorem C10_print_bboxes_range (bboxes : List (Nat × Nat × Nat × Nat)) (shape : Nat × Nat)
    (i j : Nat) :
    ∃ n : Nat, n ≤ bboxes.length ∧ (print_bboxes bboxes shape).data i j = (n : ℚ) := by
  have hd := print_bboxes_data bboxes shape i j
  cases hf : bboxes.enum.reverse.find? (fun p => covers p.2 shape.1 shape.2 i j) with
  | none =>
    rw [hf] at hd
    exact ⟨0, Nat.zero_le _, by rw [hd]; simp⟩
  | some p =>
    rw [hf] at hd
    have hpmem : p ∈ bboxes.enum := by
      have := List.mem_of_find?_eq_some hf
      simpa using this
    have hplt : p.1 < bboxes.length := by
      rw [List.enum_eq_zip_range] at hpmem
      have := (List.of_mem_zip hpmem).1
      simpa using this
    exact ⟨p.1 + 1, hplt, hd⟩

/-! ### Gradient Activation Mapper (`grad_cam`, algorithms.py lines 6-56) -/

/-- Value produced by a float division that may divide by zero: either an
exact (rational) number, or NaN / a signed infinity. -/
inductive NpFloat where
  | num (q : ℚ)
  | nan
  | inf
  | neginf
deriving DecidableEq

/-- Float division `x / M` as numpy/TensorFlow perform it: dividing by
zero yields NaN (for `0/0`) or a signed infinity, never an error. -/
def npDiv (x M : ℚ) : NpFloat :=
  if M = 0 then (if x = 0 then .nan else if 0 < x then .inf else .neginf)
  else .num (x / M)

/-- Whether a heatmap value is a real number in `[0, 1]`. -/
def NpFloat.inUnit : NpFloat → Bool
  | .num q => decide (0 ≤ q) && decide (q ≤ 1)
  | _ => false

def sumQ (l : List ℚ) : ℚ := l.foldl (· + ·) 0

/-- Channel contraction used by
`last_conv_layer_output @ pooled_grads[..., tf.newaxis]`. -/
def dotQ (xs ws : List ℚ) : ℚ := sumQ ((xs.zip ws).map (fun p => p.1 * p.2))

/-- Maximum of the entries of a tensor (`tf.reduce_max`, `ndarray.max()`)
over a nonempty value list; the empty-tensor convention is never reached
by the claims. -/
def qMax : List ℚ → ℚ
  | [] => 0
  | x :: xs => xs.foldl max x

/-- First index of the maximum entry: `np.argmax` and `tf.argmax` both
return the smallest maximizing index.  (Empty input raises in numpy; it is
modelled as index 0 and never reached by the claims.) -/
def argmaxQ (l : List ℚ) : Nat :=
  (l.enum.foldl (fun best p => if best.2 < p.2 then p else best) (0, l.headD 0)).1

/-- The dual-output view of the model built by `grad_cam`
(`tf.keras.models.Model([model.inputs], [layer.output, model.output])`)
evaluated at one fixed input image: the target layer's activation for
batch item 0 (height' × width' × channels), the prediction vector for
batch item 0, and the reverse-mode gradient of `preds[:, i]` with respect
to the activation as a function of the class index `i` (the gradient tape
delegates to the external model's autodiff capability, so the gradient
tensor is part of the opaque model interface). -/
structure TFModel where
  activation : List (List (List ℚ))
  preds : List ℚ
  grad : Nat → List (List (List ℚ))

/-- `tf.reduce_mean(grads, axis=(0, 1, 2))` for a batch-of-one gradient
tensor: the per-channel mean over the batch and spatial axes. -/
def pooledGrads (g : List (List (List ℚ))) : List ℚ :=
  let c := ((g.headD []).headD []).length
  let n : ℚ := ((g.length * (g.headD []).length : Nat) : ℚ)
  (List.range c).map (fun k =>
    sumQ (g.map (fun row => sumQ (row.map (fun px => px.getD k 0)))) / n)

/-- Class index used by `grad_cam`: the explicit `pred_index` when given,
else `tf.argmax(preds[0])` from the same forward pass. -/
def grad_cam_index (m : TFModel) (pred_index : Option Nat) : Nat :=
  match pred_index with
  | none => argmaxQ m.preds
  | some i => i

/-- The pre-normalization heatmap of `grad_cam`: the activation's channels
contracted against the pooled gradient weights and squeezed to 2-D. -/
def grad_cam_raw (m : TFModel) (pred_index : Option Nat) : List (List ℚ) :=
  let pooled := pooledGrads (m.grad (grad_cam_index m pred_index))
  m.activation.map (fun row => row.map (fun px => dotQ px pooled))

/-- Embedding of `grad_cam`: the pre-normalization map, clipped at zero
and divided entrywise by its maximum
(`tf.maximum(heatmap, 0) / tf.math.reduce_max(heatmap)`; the reduce_max
is taken over the unclipped map, and a zero maximum is divided through
without any guard). -/
def grad_cam (m : TFModel) (pred_index : Option Nat) : List (List NpFloat) :=
  let heatmap := grad_cam_raw m pred_index
  let M := qMax heatmap.flatten
  heatmap.map (fun row => row.map (fun v => npDiv (max v 0) M))

/-- Every heatmap entry is a real number in `[0, 1]`. -/
def allInUnit (hm : List (List NpFloat)) : Bool :=
  hm.all (fun row => row.all NpFloat.inUnit)

theorem foldl_max_bounds (l : List ℚ) (a : ℚ) :
    a ≤ l.foldl max a ∧ ∀ x ∈ l, x ≤ l.foldl max a := by
  induction l generalizing a with
  | nil => simp
  | cons y ys ih =>
    refine ⟨le_trans (le_max_left a y) (ih (max a y)).1, ?_⟩
    intro x hx
    rcases List.mem_cons.mp hx with rfl | hx
    · exact le_trans (le_max_right a x) (ih (max a x)).1
    · exact (ih (max a y)).2 x hx

theorem foldl_max_mem (l : List ℚ) (a : ℚ) : l.foldl max a ∈ a :: l := by
  induction l generalizing a with
  | nil => simp
  | cons y ys ih =>
    have h := ih (max a y)
    rcases List.mem_cons.mp h with hh | hh
    · rcases max_choice a y with hm | hm
      · rw [List.foldl_cons, hh, hm]; exact List.mem_cons_self _ _
      · rw [List.foldl_cons, hh, hm]
        exact List.mem_cons_of_mem _ (List.mem_cons_self _ _)
    · exact List.mem_cons_of_mem _ (List.mem_cons_of_mem _ hh)

theorem qMax_le (l : List ℚ) (x : ℚ) (hx : x ∈ l) : x ≤ qMax l := by
  cases l with
  | nil => cases hx
  | cons y ys =>
    rcases List.mem_cons.mp hx with rfl | hx
    · exact (foldl_max_bounds ys x).1
    · exact (foldl_max_bounds ys y).2 x hx

theorem qMax_mem (l : List ℚ) (hl : l ≠ []) : qMax l ∈ l := by
  cases l with
  | nil => exact absurd rfl hl
  | cons y ys => exact foldl_max_mem ys y

/-- C2 evaluation at the failing input: with an all-zero activation the
pre-normalization maximum is zero, and `grad_cam` divides by it and
returns a NaN heatmap instead of failing with a no-salient-signal error
(the source has no guard at `algorithms.py:54`; `occlusion_test` likewise
divides by `heatmap.max()` without a guard at line 114). -/
theorem C2_grad_cam_returns_nan :
    qMax (grad_cam_raw ⟨[[[0, 0]]], [1/2, 1/2], fun _ => [[[0, 0]]]⟩ none).flatten = 0 ∧
    grad_cam ⟨[[[0, 0]]], [1/2, 1/2], fun _ => [[[0, 0]]]⟩ none = [[NpFloat.nan]] := by
  constructor
  · norm_num [grad_cam_raw, pooledGrads, dotQ, sumQ, qMax, List.range_succ]
  · norm_num [grad_cam, grad_cam_raw, pooledGrads, dotQ, sumQ, qMax, npDiv,
      List.range_succ]

/-- C5 counterexample: `grad_cam` returns on an input whose
pre-normalization maximum is zero, and the returned heatmap value is NaN,
not a number in `[0, 1]`. -/
theorem C5_unit_range_counterexample :
    grad_cam ⟨[[[0]]], [1], fun _ => [[[1]]]⟩ none = [[NpFloat.nan]] ∧
    allInUnit (grad_cam ⟨[[[0]]], [1], fun _ => [[[1]]]⟩ none) = false := by
  have h : grad_cam ⟨[[[0]]], [1], fun _ => [[[1]]]⟩ none = [[NpFloat.nan]] := by
    norm_num [grad_cam, grad_cam_raw, pooledGrads, dotQ, sumQ, qMax, npDiv,
      List.range_succ]
  exact ⟨h, by rw [h]; rfl⟩

/-- C5 (amended): whenever the pre-normalization weighted activation map
has at least one positive entry, the heatmap `grad_cam` returns has every
value in `[0, 1]` and attains the value 1 (so its maximum is exactly 1);
with a zero pre-normalization maximum the code instead divides by zero
and returns NaN values. -/
theorem C5_grad_cam_unit_range (m : TFModel) (pi : Option Nat)
    (hpos : ∃ v ∈ (grad_cam_raw m pi).flatten, 0 < v) :
    allInUnit (grad_cam m pi) = true ∧
    NpFloat.num 1 ∈ (grad_cam m pi).flatten := by
  obtain ⟨v, hv, hvpos⟩ := hpos
  have hM : 0 < qMax (grad_cam_raw m pi).flatten :=
    lt_of_lt_of_le hvpos (qMax_le _ v hv)
  constructor
  · simp only [allInUnit, grad_cam, List.all_eq_true]
    intro row hrow
    obtain ⟨r0, hr0, rfl⟩ := List.mem_map.mp hrow
    intro x hx
    obtain ⟨v0, hv0, rfl⟩ := List.mem_map.mp hx
    have hv0mem : v0 ∈ (grad_cam_raw m pi).flatten :=
      List.mem_flatten.mpr ⟨r0, hr0, hv0⟩
    have hle : max v0 0 ≤ qMax (grad_cam_raw m pi).flatten :=
      max_le (qMax_le _ _ hv0mem) (le_of_lt hM)
    rw [npDiv, if_neg (ne_of_gt hM)]
    simp only [NpFloat.inUnit, Bool.and_eq_true, decide_eq_true_eq]
    exact ⟨div_nonneg (le_max_right v0 0) (le_of_lt hM), (div_le_one hM).mpr hle⟩
  · have hne : (grad_cam_raw m pi).flatten ≠ [] := List.ne_nil_of_mem hv
    obtain ⟨r1, hr1, hMr⟩ := List.mem_flatten.mp (qMax_mem _ hne)
    have hout : npDiv (max (qMax (grad_cam_raw m pi).flatten) 0)
        (qMax (grad_cam_raw m pi).flatten) ∈ (grad_cam m pi).flatten := by
      simp only [grad_cam]
      exact List.mem_flatten.mpr ⟨_, List.mem_map_of_mem _ hr1,
        List.mem_map_of_mem _ hMr⟩
    rw [npDiv, if_neg (ne_of_gt hM), max_eq_left (le_of_lt hM),
      div_self (ne_of_gt hM)] at hout
    exact hout

theorem C5_grad_cam_unit_range_witness :
    (∃ v ∈ (grad_cam_raw ⟨[[[2]]], [1], fun _ => [[[1]]]⟩ none).flatten, 0 < v) ∧
    (allInUnit (grad_cam ⟨[[[2]]], [1], fun _ => [[[1]]]⟩ none) = true ∧
      NpFloat.num 1 ∈ (grad_cam ⟨[[[2]]], [1], fun _ => [[[1]]]⟩ none).flatten) := by
  have hpos : ∃ v ∈ (grad_cam_raw ⟨[[[2]]], [1], fun _ => [[[1]]]⟩ none).flatten, 0 < v := by
    refine ⟨2, ?_, by norm_num⟩
    norm_num [grad_cam_raw, pooledGrads, dotQ, sumQ, List.range_succ]
  exact ⟨hpos, C5_grad_cam_unit_range ⟨[[[2]]], [1], fun _ => [[[1]]]⟩ none hpos⟩

/-- C7: calling `grad_cam` with an explicit `pred_index` equal to the
arg-max of the model's prediction vector for the image returns output
identical to calling it without `pred_index`: the default branch computes
exactly `tf.argmax(preds[0])` from the same forward pass. -/
theorem C7_grad_cam_default_index (m : TFModel) :
    grad_cam m (some (argmaxQ m.preds)) = grad_cam m none := rfl

/-! ### Occlusion Evaluator (`occlusion_test`, algorithms.py lines 86-118)

`occlusion_test` mutates arrays in place (`img_ocluded[:, :, c][mask] = 0`,
`heatmap[:, :, c][mask] = rel`, `heatmap /= heatmap.max()`), and claim C8
is about which buffers those writes reach, so arrays are modelled as flat
C-order buffers in an explicit heap: an `NdArr` names its buffer (`ref`)
and shape, views (`reshape`) share the buffer, and `np.copy` allocates a
fresh one.  Rational values model float values exactly on every path a
theorem below depends on; the final `heatmap /= heatmap.max()` is the
division-by-zero site recorded under claim C2 (shown there on `grad_cam`,
whose normalization the source guards equally little). -/

/-- Numpy exception kinds raised by the modelled operations. -/
inductive NpErr where
  | valueError
  | indexError
deriving DecidableEq

/-- A store of flat float buffers: buffer id → flat offset → value.
`next` is the next unallocated buffer id; a heap is well formed for a
caller array when that array's `ref` is below `next`. -/
structure Heap where
  next : Nat
  store : Nat → Nat → ℚ

/-- An ndarray descriptor: the buffer it aliases and its shape. -/
structure NdArr where
  ref : Nat
  shape : List Nat

/-- Flat C-order offset of a multi-index. -/
def flattenIx : List Nat → List Nat → Nat
  | _ :: rest, i :: is => i * rest.prod + flattenIx rest is
  | _, _ => 0

/-- Multi-index of a flat C-order offset. -/
def unflattenIx : List Nat → Nat → List Nat
  | [], _ => []
  | d :: rest, off => (off / rest.prod) % d :: unflattenIx rest (off % rest.prod)

/-- Read one array element. -/
def readAt (h : Heap) (a : NdArr) (ix : List Nat) : ℚ :=
  h.store a.ref (flattenIx a.shape ix)

/-- `np.copy(a)`: allocate a fresh buffer holding the same contents. -/
def npCopy (h : Heap) (a : NdArr) : NdArr × Heap :=
  (⟨h.next, a.shape⟩,
   ⟨h.next + 1, fun r off => if r = h.next then h.store a.ref off else h.store r off⟩)

/-- `np.zeros(shape)`: allocate a fresh all-zero buffer. -/
def npZeros (h : Heap) (s : List Nat) : NdArr × Heap :=
  (⟨h.next, s⟩, ⟨h.next + 1, fun r off => if r = h.next then 0 else h.store r off⟩)

/-- A boolean index array, e.g. `occlusion_zones == u_val`. -/
structure BoolMask where
  shape : List Nat
  data : List Nat → Bool

/-- `mask = occlusion_zones == u_val`. -/
def maskOf (h : Heap) (zones : NdArr) (u : ℚ) : BoolMask :=
  ⟨zones.shape, fun ix => decide (readAt h zones ix = u)⟩

/-- Shape (or index) transformation of the basic-slicing view
`a[:, :, c]`: axis 2 is consumed by the integer index `c`, every other
axis is kept (for arrays of rank at least 3). -/
def dropAxis2 (s : List Nat) : List Nat := s.take 2 ++ s.drop 3

/-- The compound statement `a[:, :, c][mask] = v`: a basic view fixing
axis 2 at `c`, then boolean-mask assignment through the view into `a`'s
buffer.  Numpy raises `IndexError` when `c` is out of bounds on axis 2 or
when the mask's shape does not equal the leading dimensions of the view;
on success every in-bounds buffer position whose index has `c` on axis 2
and masked leading view coordinates is overwritten with `v`. -/
def assignSliceMask (h : Heap) (a : NdArr) (c : Nat) (m : BoolMask) (v : ℚ) :
    Heap × Option NpErr :=
  if c < a.shape.getD 2 0 then
    if m.shape = (dropAxis2 a.shape).take m.shape.length then
      (⟨h.next, fun r off =>
          if r = a.ref ∧ off < a.shape.prod ∧
              (unflattenIx a.shape off).getD 2 0 = c ∧
              m.data ((dropAxis2 (unflattenIx a.shape off)).take m.shape.length) = true
          then v else h.store r off⟩, none)
    else (h, some .indexError)
  else (h, some .indexError)

/-- Short-circuit sequencing of mutating numpy statements: once an
exception has been raised, later statements do not run, and the heap at
the raise point is what escapes with the exception. -/
def stepE (r : Heap × Option NpErr) (f : Heap → Heap × Option NpErr) :
    Heap × Option NpErr :=
  match r with
  | (h, some e) => (h, some e)
  | (h, none) => f h

/-- Insert a value into a sorted duplicate-free list, keeping it sorted
and duplicate-free. -/
def insSort (x : ℚ) : List ℚ → List ℚ
  | [] => [x]
  | y :: ys => if x < y then x :: y :: ys else if x = y then y :: ys else y :: insSort x ys

/-- Sorted distinct values of a list. -/
def sortedUnique (l : List ℚ) : List ℚ := l.foldr insSort []

/-- `np.unique(a)`: the sorted distinct values of the buffer. -/
def npUnique (h : Heap) (a : NdArr) : List ℚ :=
  sortedUnique ((List.range a.shape.prod).map (h.store a.ref))

/-- One iteration of the occlusion loop for region value `u`:
`mask = occlusion_zones == u_val`; `img_ocluded = np.copy(batch_img)`;
zero the three slices `img_ocluded[:, :, c][mask]`; run the model on the
occluded copy; form the relative probability drop of the winning class
`(original_prop[i] - oclussion_prop[i]) / original_prop[i]`; write it
through the three slices `heatmap[:, :, c][mask]`. -/
def occlusionIter (model : (List Nat → ℚ) → List ℚ) (zones batch heatmap : NdArr)
    (origProp : List ℚ) (idx : Nat) (h : Heap) (u : ℚ) : Heap × Option NpErr :=
  let mask := maskOf h zones u
  let co := npCopy h batch
  stepE (assignSliceMask co.2 co.1 0 mask 0) (fun h2 =>
  stepE (assignSliceMask h2 co.1 1 mask 0) (fun h3 =>
  stepE (assignSliceMask h3 co.1 2 mask 0) (fun h4 =>
    let occlProp := model (fun ix => readAt h4 co.1 ix)
    let rel := (origProp.getD idx 0 - occlProp.getD idx 0) / origProp.getD idx 0
    stepE (assignSliceMask h4 heatmap 0 mask rel) (fun h5 =>
    stepE (assignSliceMask h5 heatmap 1 mask rel) (fun h6 =>
    assignSliceMask h6 heatmap 2 mask rel)))))

/-- The `for u_val in np.unique(occlusion_zones)` loop. -/
def occlusionLoop (model : (List Nat → ℚ) → List ℚ) (zones batch heatmap : NdArr)
    (origProp : List ℚ) (idx : Nat) (uvals : List ℚ) (h : Heap) :
    Heap × Option NpErr :=
  uvals.foldl
    (fun r u => stepE r (fun hh => occlusionIter model zones batch heatmap origProp idx hh u))
    (h, none)

/-- In-place elementwise buffer update (`heatmap /= mx`, `heatmap *= 255`). -/
def writeAll (h : Heap) (a : NdArr) (f : ℚ → ℚ) : Heap :=
  ⟨h.next, fun r off =>
    if r = a.ref ∧ off < a.shape.prod then f (h.store r off) else h.store r off⟩

/-- `heatmap.max()`: maximum buffer value. -/
def arrMax (h : Heap) (a : NdArr) : ℚ :=
  qMax ((List.range a.shape.prod).map (h.store a.ref))

/-- Unsigned 8-bit array produced by `astype(np.uint8)`. -/
structure U8Arr where
  shape : List Nat
  data : List Nat → Nat

/-- Conversion of one float to uint8 (`astype(np.uint8)`): C-style
truncation toward zero, wrapped modulo 256. -/
def uint8OfQ (q : ℚ) : Nat :=
  (Int.emod (if 0 ≤ q then ⌊q⌋ else ⌈q⌉) 256).toNat

/-- The tail of `occlusion_test` after the loop:
`heatmap /= heatmap.max(); heatmap *= 255; heatmap.astype(np.uint8)`. -/
def occlusionFinish (h3 : Heap) (heatmap : NdArr) : Except NpErr U8Arr × Heap :=
  let mx := arrMax h3 heatmap
  let h4 := writeAll h3 heatmap (fun q => q / mx)
  let h5 := writeAll h4 heatmap (fun q => q * 255)
  (.ok ⟨heatmap.shape, fun ix => uint8OfQ (readAt h5 heatmap ix)⟩, h5)

/-- Dispatch on the loop's outcome: an exception escapes with the heap at
the raise point; otherwise the normalization tail runs. -/
def occlusionWrap (heatmap : NdArr) (res : Heap × Option NpErr) :
    Except NpErr U8Arr × Heap :=
  match res with
  | (h3, some e) => (.error e, h3)
  | (h3, none) => occlusionFinish h3 heatmap

/-- Embedding of `occlusion_test(batch_img, model, occlusion_zones)`.
`batch_img.reshape((1, 224, 224, 3))` is a view over the caller's buffer
(`ValueError` when the total size differs), which `np.copy` then copies;
the baseline prediction fixes the winning class `np.argmax(original_prop)`;
`heatmap = np.zeros(batch_img.shape[:3])`; one masked inference per value
of `np.unique(occlusion_zones)`; then normalization and the uint8 cast.
The model is the opaque `model.predict(...)[0]`, a function from readable
array contents to a probability vector. -/
def occlusion_test (h0 : Heap) (model : (List Nat → ℚ) → List ℚ)
    (batch_img zones : NdArr) : Except NpErr U8Arr × Heap :=
  if batch_img.shape.prod = 1 * 224 * 224 * 3 then
    let view : NdArr := ⟨batch_img.ref, [1, 224, 224, 3]⟩
    let cb := npCopy h0 view
    let origProp := model (fun ix => readAt cb.2 cb.1 ix)
    let idx := argmaxQ origProp
    let ch := npZeros cb.2 [cb.1.shape.getD 0 0, cb.1.shape.getD 1 0, cb.1.shape.getD 2 0]
    let uvals := npUnique ch.2 zones
    occlusionWrap ch.1 (occlusionLoop model zones cb.1 ch.1 origProp idx uvals ch.2)
  else (.error .valueError, h0)

theorem insSort_ne_nil (x : ℚ) (l : List ℚ) : insSort x l ≠ [] := by
  cases l with
  | nil => simp [insSort]
  | cons y ys =>
    unfold insSort
    split
    · simp
    · split
      · simp
      · simp

theorem sortedUnique_ne_nil (l : List ℚ) (hl : l ≠ []) : sortedUnique l ≠ [] := by
  cases l with
  | nil => exact absurd rfl hl
  | cons x xs =>
    rw [sortedUnique, List.foldr_cons]
    exact insSort_ne_nil x _

theorem sortedUnique_replicate (n : Nat) (c : ℚ) (hn : n ≠ 0) :
    sortedUnique (List.replicate n c) = [c] := by
  induction n with
  | zero => exact absurd rfl hn
  | succ k ih =>
    rw [List.replicate_succ, sortedUnique, List.foldr_cons]
    cases k with
    | zero => rfl
    | succ k2 =>
      rw [show (List.replicate (k2 + 1) c).foldr insSort []
          = sortedUnique (List.replicate (k2 + 1) c) from rfl]
      rw [ih (Nat.succ_ne_zero k2)]
      unfold insSort
      rw [if_neg (lt_irrefl c), if_pos rfl]

theorem npUnique_ne_nil (h : Heap) (a : NdArr) (hn : a.shape.prod ≠ 0) :
    npUnique h a ≠ [] := by
  apply sortedUnique_ne_nil
  simp [List.range_eq_nil, hn]

/-- A buffer holding a single constant value has a one-element
`np.unique`. -/
theorem npUnique_const (h : Heap) (a : NdArr) (c : ℚ)
    (hc : ∀ off, h.store a.ref off = c) (hn : a.shape.prod ≠ 0) :
    npUnique h a = [c] := by
  unfold npUnique
  have h1 : (List.range a.shape.prod).map (h.store a.ref)
      = (List.range a.shape.prod).map (fun _ => c) :=
    List.map_congr_left (fun x _ => hc x)
  rw [h1, List.map_const', List.length_range]
  exact sortedUnique_replicate _ _ hn

theorem foldl_stepE_error (l : List ℚ) (g : ℚ → Heap → Heap × Option NpErr)
    (h : Heap) (e : NpErr) :
    l.foldl (fun r u => stepE r (g u)) (h, some e) = (h, some e) := by
  induction l with
  | nil => rfl
  | cons x xs ih =>
    rw [List.foldl_cons]
    exact ih

/-- With a rank-2 region partition whose first dimension is not 1, the
first masked assignment `img_ocluded[:, :, 0][mask] = 0` of the first
loop iteration raises `IndexError`: the view `img_ocluded[:, :, 0]` of
the `(1, 224, 224, 3)` batch has shape `(1, 224, 3)`, whose leading
dimensions the mask's shape does not match. -/
theorem occlusionLoop_2d_mask_error (model : (List Nat → ℚ) → List ℚ)
    (zones batch heatmap : NdArr) (origProp : List ℚ) (idx : Nat) (h2 : Heap)
    (hbatch : batch.shape = [1, 224, 224, 3])
    (hlen : zones.shape.length = 2)
    (hz0 : zones.shape.getD 0 0 ≠ 1)
    (uvals : List ℚ) (hne : uvals ≠ []) :
    ∃ hh, occlusionLoop model zones batch heatmap origProp idx uvals h2
      = (hh, some .indexError) := by
  obtain ⟨u, us, rfl⟩ := List.exists_cons_of_ne_nil hne
  obtain ⟨d0, d1, hds⟩ := List.length_eq_two.mp hlen
  refine ⟨(npCopy h2 batch).2, ?_⟩
  have hfirst : assignSliceMask (npCopy h2 batch).2 (npCopy h2 batch).1 0
      (maskOf h2 zones u) 0 = ((npCopy h2 batch).2, some .indexError) := by
    unfold assignSliceMask
    rw [if_pos (by simp [npCopy, hbatch]), if_neg ?_]
    show ¬(maskOf h2 zones u).shape
        = (dropAxis2 (npCopy h2 batch).1.shape).take (maskOf h2 zones u).shape.length
    simp only [maskOf, npCopy, hbatch, hds, dropAxis2]
    intro hcon
    simp only [List.take, List.cons.injEq] at hcon
    rw [hds] at hz0
    exact hz0 hcon.1
  unfold occlusionLoop
  rw [List.foldl_cons]
  have hiter : occlusionIter model zones batch heatmap origProp idx h2 u
      = ((npCopy h2 batch).2, some .indexError) := by
    unfold occlusionIter
    simp only []
    rw [hfirst]
    rfl
  have hstep : stepE (h2, none)
      (fun hh => occlusionIter model zones batch heatmap origProp idx hh u)
      = occlusionIter model zones batch heatmap origProp idx h2 u := rfl
  rw [hstep, hiter]
  exact foldl_stepE_error us
    (fun u hh => occlusionIter model zones batch heatmap origProp idx hh u) _ _

theorem occlusionLoop_2d_snd (model : (List Nat → ℚ) → List ℚ)
    (zones batch heatmap : NdArr) (origProp : List ℚ) (idx : Nat) (h2 : Heap)
    (hbatch : batch.shape = [1, 224, 224, 3])
    (hlen : zones.shape.length = 2)
    (hz0 : zones.shape.getD 0 0 ≠ 1)
    (uvals : List ℚ) (hne : uvals ≠ []) :
    (occlusionLoop model zones batch heatmap origProp idx uvals h2).2
      = some .indexError := by
  obtain ⟨hh, h⟩ := occlusionLoop_2d_mask_error model zones batch heatmap origProp idx h2
    hbatch hlen hz0 uvals hne
  rw [h]

theorem occlusionWrap_error (hm : NdArr) (res : Heap × Option NpErr) (e : NpErr)
    (h : res.2 = some e) : occlusionWrap hm res = (.error e, res.1) := by
  rcases res with ⟨h3, o⟩
  cases o with
  | none => simp at h
  | some e2 =>
    simp only at h
    injection h with h
    subst h
    rfl

/-- With a rank-2 region partition whose first dimension differs from 1
(in particular any `(height, width)` partition of the 224-by-224 image),
`occlusion_test` raises `IndexError` in the first loop iteration, from
the mask-shape mismatch in `img_ocluded[:, :, 0][mask] = 0`. -/
theorem occlusion_2d_error (h0 : Heap) (model : (List Nat → ℚ) → List ℚ)
    (img zones : NdArr)
    (himg : img.shape.prod = 1 * 224 * 224 * 3)
    (hlen : zones.shape.length = 2)
    (hnz : zones.shape.prod ≠ 0)
    (hz0 : zones.shape.getD 0 0 ≠ 1) :
    (occlusion_test h0 model img zones).1 = .error .indexError := by
  unfold occlusion_test
  rw [if_pos himg]
  simp only []
  rw [occlusionWrap_error _ _ _ (occlusionLoop_2d_snd model zones _ _ _ _ _ rfl hlen hz0 _
    (npUnique_ne_nil _ zones hnz))]

/-- C1 evaluation at the failing input: for a 224-by-224 region partition
holding only the identifier 0, `np.unique` yields `[0]` — so the loop
performs one iteration, treating 0 as an ordinary region rather than
flagging an empty partition — and the call then raises `IndexError` from
the mask-shape slip, not any `EmptyRegionPartition` condition (none exists
in the source). -/
theorem C1_occlusion_zero_partition_not_flagged :
    npUnique ⟨2, fun _ _ => 0⟩ ⟨1, [224, 224]⟩ = [0] ∧
    (occlusion_test ⟨2, fun _ _ => 0⟩ (fun _ => [1])
        ⟨0, [224, 224, 3]⟩ ⟨1, [224, 224]⟩).1 = Except.error NpErr.indexError :=
  ⟨npUnique_const _ _ _ (fun _ => rfl) (by decide),
   occlusion_2d_error _ _ _ _ (by decide) rfl (by decide) (by decide)⟩

/-- C6 evaluation at the failing input: a batch image of shape
`(224, 224, 3)` with a single-region `(224, 224)` partition (every pixel
labelled 1).  Instead of broadcasting the relative probability drop to the
whole region and returning a constant heatmap, `occlusion_test` raises
`IndexError`: `img_ocluded[:, :, 0]` selects axis 2 of the 4-D batch (a
`(1, 224, 3)` view), which the `(224, 224)` region mask cannot index. -/
theorem C6_occlusion_single_region_crashes :
    npUnique ⟨2, fun r _ => if r = 1 then 1 else 0⟩ ⟨1, [224, 224]⟩ = [1] ∧
    (occlusion_test ⟨2, fun r _ => if r = 1 then 1 else 0⟩ (fun _ => [1])
        ⟨0, [224, 224, 3]⟩ ⟨1, [224, 224]⟩).1 = Except.error NpErr.indexError :=
  ⟨npUnique_const _ _ _ (fun _ => rfl) (by decide),
   occlusion_2d_error _ _ _ _ (by decide) rfl (by decide) (by decide)⟩

/-! Frame property (claim C8): the caller's buffer is never written.
`Pres r h h'` says heap `h'` still agrees with `h` on buffer `r` and has
not reused ids below `h.next`. -/

def Pres (r : Nat) (h h' : Heap) : Prop :=
  h.next ≤ h'.next ∧ h'.store r = h.store r

theorem Pres_refl (r : Nat) (h : Heap) : Pres r h h := ⟨le_refl _, rfl⟩

theorem Pres_trans {r : Nat} {h1 h2 h3 : Heap} (a : Pres r h1 h2) (b : Pres r h2 h3) :
    Pres r h1 h3 := ⟨le_trans a.1 b.1, b.2.trans a.2⟩

theorem npCopy_pres (r : Nat) (h : Heap) (a : NdArr) (hr : r < h.next) :
    Pres r h (npCopy h a).2 :=
  ⟨Nat.le_succ _, by funext off; exact if_neg (Nat.ne_of_lt hr)⟩

theorem npZeros_pres (r : Nat) (h : Heap) (s : List Nat) (hr : r < h.next) :
    Pres r h (npZeros h s).2 :=
  ⟨Nat.le_succ _, by funext off; exact if_neg (Nat.ne_of_lt hr)⟩

theorem assignSliceMask_pres (r : Nat) (h : Heap) (a : NdArr) (c : Nat) (m : BoolMask)
    (v : ℚ) (hr : r ≠ a.ref) : Pres r h (assignSliceMask h a c m v).1 := by
  unfold assignSliceMask
  split
  · split
    · exact ⟨le_refl _, by funext off; exact if_neg (fun hcon => hr hcon.1)⟩
    · exact Pres_refl r h
  · exact Pres_refl r h

theorem writeAll_pres (r : Nat) (h : Heap) (a : NdArr) (f : ℚ → ℚ) (hr : r ≠ a.ref) :
    Pres r h (writeAll h a f) :=
  ⟨le_refl _, by funext off; exact if_neg (fun hcon => hr hcon.1)⟩

theorem stepE_pres (r : Nat) (h : Heap) (res : Heap × Option NpErr)
    (f : Heap → Heap × Option NpErr)
    (h1 : Pres r h res.1) (h2 : ∀ hh, Pres r h hh → Pres r h (f hh).1) :
    Pres r h (stepE res f).1 := by
  rcases res with ⟨hh, o⟩
  cases o with
  | some e => exact h1
  | none => exact h2 hh h1

theorem occlusionIter_pres (model : (List Nat → ℚ) → List ℚ)
    (zones batch heatmap : NdArr) (origProp : List ℚ) (idx : Nat)
    (r : Nat) (hrh : r ≠ heatmap.ref) (h : Heap) (hr : r < h.next) (u : ℚ) :
    Pres r h (occlusionIter model zones batch heatmap origProp idx h u).1 := by
  unfold occlusionIter
  simp only []
  have hco : Pres r h (npCopy h batch).2 := npCopy_pres r h batch hr
  have hocl : r ≠ (npCopy h batch).1.ref := Nat.ne_of_lt hr
  refine stepE_pres r h _ _ (Pres_trans hco (assignSliceMask_pres r _ _ 0 _ 0 hocl)) ?_
  intro h2 hp2
  refine stepE_pres r h _ _ (Pres_trans hp2 (assignSliceMask_pres r _ _ 1 _ 0 hocl)) ?_
  intro h3 hp3
  refine stepE_pres r h _ _ (Pres_trans hp3 (assignSliceMask_pres r _ _ 2 _ 0 hocl)) ?_
  intro h4 hp4
  refine stepE_pres r h _ _ (Pres_trans hp4 (assignSliceMask_pres r _ _ 0 _ _ hrh)) ?_
  intro h5 hp5
  refine stepE_pres r h _ _ (Pres_trans hp5 (assignSliceMask_pres r _ _ 1 _ _ hrh)) ?_
  intro h6 hp6
  exact Pres_trans hp6 (assignSliceMask_pres r _ _ 2 _ _ hrh)

theorem occlusionLoop_pres (model : (List Nat → ℚ) → List ℚ)
    (zones batch heatmap : NdArr) (origProp : List ℚ) (idx : Nat)
    (r : Nat) (hrh : r ≠ heatmap.ref) (uvals : List ℚ) (h2 : Heap) (hr : r < h2.next) :
    Pres r h2 (occlusionLoop model zones batch heatmap origProp idx uvals h2).1 := by
  unfold occlusionLoop
  suffices hgen : ∀ init : Heap × Option NpErr, Pres r h2 init.1 →
      Pres r h2 ((uvals.foldl (fun res u =>
        stepE res (fun hh => occlusionIter model zones batch heatmap origProp idx hh u))
        init).1) by
    exact hgen (h2, none) (Pres_refl r h2)
  induction uvals with
  | nil => exact fun init h => h
  | cons u us ih =>
    intro init hinit
    rw [List.foldl_cons]
    apply ih
    exact stepE_pres r h2 init _ hinit (fun hh hp =>
      Pres_trans hp (occlusionIter_pres model zones batch heatmap origProp idx r hrh hh
        (lt_of_lt_of_le hr hp.1) u))

theorem occlusionWrap_pres (r : Nat) (hm : NdArr) (hrh : r ≠ hm.ref)
    (res : Heap × Option NpErr) (h2 : Heap) (hres : Pres r h2 res.1) :
    Pres r h2 (occlusionWrap hm res).2 := by
  rcases res with ⟨h3, o⟩
  cases o with
  | some e => exact hres
  | none =>
    exact Pres_trans hres (Pres_trans (writeAll_pres r h3 hm _ hrh)
      (writeAll_pres r _ hm _ hrh))

/-- C8: the caller-supplied image batch buffer is unchanged after
`occlusion_test` returns or raises: reshape produces a view, `np.copy`
copies it into a fresh buffer, and every masked write targets either the
per-iteration occluded copy or the internally allocated heatmap. -/
theorem C8_occlusion_input_unchanged (h0 : Heap) (model : (List Nat → ℚ) → List ℚ)
    (batch_img zones : NdArr) (hwf : batch_img.ref < h0.next) :
    ((occlusion_test h0 model batch_img zones).2).store batch_img.ref
      = h0.store batch_img.ref := by
  unfold occlusion_test
  by_cases hsz : batch_img.shape.prod = 1 * 224 * 224 * 3
  · rw [if_pos hsz]
    simp only []
    have hp1 : Pres batch_img.ref h0 (npCopy h0 ⟨batch_img.ref, [1, 224, 224, 3]⟩).2 :=
      npCopy_pres _ _ _ hwf
    have hrlt1 : batch_img.ref < (npCopy h0 ⟨batch_img.ref, [1, 224, 224, 3]⟩).2.next :=
      lt_of_lt_of_le hwf hp1.1
    refine (occlusionWrap_pres batch_img.ref _ (Nat.ne_of_lt hrlt1) _ h0 ?_).2
    refine Pres_trans (Pres_trans hp1
      (npZeros_pres batch_img.ref _ [1, 224, 224] hrlt1)) ?_
    exact occlusionLoop_pres model zones _ _ _ _ batch_img.ref (Nat.ne_of_lt hrlt1) _ _
      (Nat.lt_succ_of_lt hrlt1)
  · rw [if_neg hsz]

theorem C8_occlusion_input_unchanged_witness :
    (⟨0, [2]⟩ : NdArr).ref < (⟨1, fun _ _ => 0⟩ : Heap).next ∧
    ((occlusion_test ⟨1, fun _ _ => 0⟩ (fun _ => [1]) ⟨0, [2]⟩ ⟨0, [2]⟩).2).store
        (⟨0, [2]⟩ : NdArr).ref
      = (⟨1, fun _ _ => 0⟩ : Heap).store (⟨0, [2]⟩ : NdArr).ref :=
  ⟨by decide,
   C8_occlusion_input_unchanged ⟨1, fun _ _ => 0⟩ (fun _ => [1]) ⟨0, [2]⟩ ⟨0, [2]⟩
     (by decide)⟩
